import Mathlib

/-!
# Verification of the MarkItDown webserver's inline-image shrinker

Shallow embedding of `src/webserver.py`.  The algorithmic core of the file
is `resize_base64_images`, which scans markdown text with the regex
`!\[([^\]]*)\]\(data:image/([^;]+);base64,([^)]+)\)` and, for each match,
re-encodes over-budget base64 images via the per-match callback
`resize_image_match`.

External collaborators (PIL, the MarkItDown conversion engine, Flask,
werkzeug) are out of scope per the spec; they are modelled as opaque
parameters (`Codec`, converter functions).  The Python standard library's
`base64.b64encode` / `base64.b64decode` are modelled concretely below, since
the size arithmetic of the claims depends on them.

Strings are modelled as `List Char`; bytes as `Fin 256`.
-/

set_option autoImplicit false

namespace MarkItDown

abbrev Byte := Fin 256

/-! ## Base64 (model of Python's `base64` module)

`b64encode` is standard RFC 4648 encoding without line breaks, as Python's
`base64.b64encode` produces.  `b64decode` models `base64.b64decode` with its
default `validate=False`: characters outside the alphabet are discarded, and
a filtered length that is not a multiple of four, or misplaced padding,
raises `binascii.Error` (modelled as `none`). -/

def b64chars : List Char :=
  "ABCDEFGHIJKLMNOPQRSTUVWXYZabcdefghijklmnopqrstuvwxyz0123456789+/".data

/-- Character of the base64 alphabet at index `i`. -/
def b64tbl (i : Nat) : Char := b64chars.getD i 'A'

/-- Index of `c` in the base64 alphabet, if any. -/
def b64Index (c : Char) : Option Nat :=
  go b64chars 0
where
  go : List Char → Nat → Option Nat
    | [], _ => none
    | d :: ds, i => if d = c then some i else go ds (i + 1)

def isB64 (c : Char) : Bool := (b64Index c).isSome

def encTriple (a b c : Byte) : List Char :=
  [b64tbl (a.val / 4), b64tbl (a.val % 4 * 16 + b.val / 16),
   b64tbl (b.val % 16 * 4 + c.val / 64), b64tbl (c.val % 64)]

def b64encode : List Byte → List Char
  | [] => []
  | [a] => [b64tbl (a.val / 4), b64tbl (a.val % 4 * 16), '=', '=']
  | [a, b] => [b64tbl (a.val / 4), b64tbl (a.val % 4 * 16 + b.val / 16),
               b64tbl (b.val % 16 * 4), '=']
  | a :: b :: c :: rest => encTriple a b c ++ b64encode rest

def byteOf (n : Nat) : Byte := ⟨n % 256, Nat.mod_lt _ (by omega)⟩

/-- Decode a stream of already-filtered base64 characters, four at a time. -/
def decQuads : List Char → Option (List Byte)
  | [] => some []
  | a :: b :: c :: d :: rest =>
    match b64Index a, b64Index b with
    | some ia, some ib =>
      if c = '=' then
        if d = '=' ∧ rest = [] then some [byteOf (ia * 4 + ib / 16)] else none
      else
        match b64Index c with
        | some ic =>
          if d = '=' then
            if rest = [] then
              some [byteOf (ia * 4 + ib / 16), byteOf (ib % 16 * 16 + ic / 4)]
            else none
          else
            match b64Index d with
            | some id2 =>
              match decQuads rest with
              | some tail =>
                some (byteOf (ia * 4 + ib / 16) :: byteOf (ib % 16 * 16 + ic / 4) ::
                      byteOf (ic % 4 * 64 + id2) :: tail)
              | none => none
            | none => none
        | none => none
    | _, _ => none
  | _ => none

def b64decode (s : List Char) : Option (List Byte) :=
  decQuads (s.filter (fun c => isB64 c || c = '='))

/-! ## The image-block pattern

`pattern = r'!\[([^\]]*)\]\(data:image/([^;]+);base64,([^)]+)\)'`
(webserver.py line 42).  Each character class excludes exactly the delimiter
that follows it, so greedy matching and backtracking coincide with a
deterministic "split at the first delimiter" scan. -/

structure ImgMatch where
  alt : List Char
  fmt : List Char
  payload : List Char
deriving DecidableEq, Repr

/-- `group(0)` of a match: the full matched text
`![alt](data:image/fmt;base64,payload)`. -/
def renderMatch (m : ImgMatch) : List Char :=
  "![".data ++ m.alt ++ "](data:image/".data ++ m.fmt ++ ";base64,".data ++
    m.payload ++ ")".data

/-- Strip a literal prefix, or fail. -/
def dropLit (lit l : List Char) : Option (List Char) :=
  if lit.isPrefixOf l then some (l.drop lit.length) else none

/-- Split at the first occurrence of `c`: `(before, after)`, failing when `c`
does not occur.  This is `([^c]*)c` with a greedy class that cannot contain
`c`, hence also `([^c]+)c` once emptiness of the first component is
checked by the caller. -/
def splitOn1 (c : Char) (l : List Char) : Option (List Char × List Char) :=
  match l.dropWhile (fun d => d ≠ c) with
  | _ :: rest => some (l.takeWhile (fun d => d ≠ c), rest)
  | [] => none

/-- Stages `base64,` and `([^)]+)\)` of the pattern. -/
def stagePay (r6 : List Char) : Option (List Char × List Char) :=
  match dropLit "base64,".data r6 with
  | none => none
  | some r7 =>
    match splitOn1 ')' r7 with
    | none => none
    | some (pay, r9) => if pay = [] then none else some (pay, r9)

/-- Stages `([^;]+);` onwards. -/
def stageFmt (r4 : List Char) : Option (List Char × List Char × List Char) :=
  match splitOn1 ';' r4 with
  | none => none
  | some (fmt, r6) =>
    if fmt = [] then none else
    match stagePay r6 with
    | none => none
    | some (pay, r9) => some (fmt, pay, r9)

/-- Stages `\(data:image/` onwards. -/
def stageUri (r3 : List Char) : Option (List Char × List Char × List Char) :=
  match dropLit "(data:image/".data r3 with
  | none => none
  | some r4 => stageFmt r4

/-- Attempt the whole pattern at the head of `l`; on success return the
captured groups and the remaining text after the match. -/
def matchHere (l : List Char) : Option (ImgMatch × List Char) :=
  match dropLit "![".data l with
  | none => none
  | some r1 =>
    match splitOn1 ']' r1 with
    | none => none
    | some (alt, r3) =>
      match stageUri r3 with
      | none => none
      | some (fmt, pay, r9) => some (⟨alt, fmt, pay⟩, r9)

/-! ## The PIL codec, as an opaque capability

PIL is an external collaborator: `Image.open`, `Image.resize` and
`Image.save` are modelled as opaque functions of a `Codec`.  A `none` result
models the call raising an exception, which `resize_image_match` catches. -/

structure PImage where
  width : Nat
  height : Nat
  raw : List Byte
deriving DecidableEq

structure Codec where
  /-- `Image.open(io.BytesIO(image_data))` -/
  imgOpen : List Byte → Option PImage
  /-- `image.resize((w, h), Image.Resampling.LANCZOS)` -/
  resize : PImage → Nat → Nat → Option PImage
  /-- `img.save(buf, format=fmt, quality=q, optimize=True)` (JPEG branch) -/
  saveQ : PImage → List Char → Nat → Option (List Byte)
  /-- `img.save(buf, format=fmt, optimize=True)` (non-JPEG branch) -/
  save : PImage → List Char → Option (List Byte)

/-- `save_format = image_format.upper(); if save_format == 'JPG': 'JPEG'`
(webserver.py lines 77-79). -/
def saveFormatOf (fmt : List Char) : List Char :=
  let u := fmt.map Char.toUpper
  if u = "JPG".data then "JPEG".data else u

/-- Lines 82-85: JPEG saves pass `quality=85`, others do not. -/
def saveOf (C : Codec) (img : PImage) (save_format : List Char) :
    Option (List Byte) :=
  if save_format = "JPEG".data then C.saveQ img save_format 85
  else C.save img save_format

/-- The iterative shrink loop (webserver.py lines 63-97).  The scale factor
starts at 0.8 and is multiplied by 0.8 each round; dimensions are always
computed from the *original* `image`.  `none` models both an exception
escaping the loop and the loop exhausting its iterations; either way the
caller returns the original match. -/
def shrinkLoop (C : Codec) (max_size_kb : Int) (image : PImage)
    (image_format : List Char) : Nat → ℚ → Option (List Byte)
  | 0, _ => none
  | n + 1, scale_factor =>
    let new_width := (⌊(image.width : ℚ) * scale_factor⌋).toNat
    let new_height := (⌊(image.height : ℚ) * scale_factor⌋).toNat
    match C.resize image new_width new_height with
    | none => none
    | some resized_image =>
      match saveOf C resized_image (saveFormatOf image_format) with
      | none => none
      | some new_image_data =>
        if (new_image_data.length : ℚ) / 1024 ≤ (max_size_kb : ℚ) then
          some new_image_data
        else
          shrinkLoop C max_size_kb image image_format n (scale_factor * (4 / 5))

/-- `resize_image_match` (webserver.py lines 44-105): the per-match callback
passed to `re.sub`.  Every failure path returns `match.group(0)`, i.e. the
original matched text. -/
def resize_image_match (C : Codec) (max_size_kb : Int) (m : ImgMatch) :
    List Char :=
  match b64decode m.payload with
  | none => renderMatch m
  | some image_data =>
    if (image_data.length : ℚ) / 1024 ≤ (max_size_kb : ℚ) then renderMatch m
    else
      match C.imgOpen image_data with
      | none => renderMatch m
      | some image =>
        match shrinkLoop C max_size_kb image m.fmt 5 (4 / 5 : ℚ) with
        | some new_image_data =>
          renderMatch ⟨m.alt, m.fmt, b64encode new_image_data⟩
        | none => renderMatch m

/-! ## The document scan (`re.sub`)

`re.sub(pattern, repl, text)` replaces the non-overlapping matches found in
a single left-to-right scan.  `scanParts` records that scan as a list of
unmatched characters and matches; `applyParts` reassembles the document. -/

inductive Part where
  | raw : Char → Part
  | img : ImgMatch → Part
deriving DecidableEq

/-! ### Characterizations of the matching primitives -/

theorem dropLit_eq_some {lit l r : List Char} :
    dropLit lit l = some r ↔ l = lit ++ r := by
  unfold dropLit
  by_cases hp : lit.isPrefixOf l
  · rw [if_pos hp]
    have hpre : lit <+: l := List.isPrefixOf_iff_prefix.mp hp
    constructor
    · intro h
      obtain ⟨rfl⟩ : l.drop lit.length = r := by simpa using h
      exact (List.prefix_iff_eq_append.mp hpre).symm
    · intro h
      subst h
      simp [List.drop_left]
  · rw [if_neg hp]
    constructor
    · intro h; exact absurd h (by simp)
    · intro h
      subst h
      exact absurd (List.isPrefixOf_iff_prefix.mpr (List.prefix_append _ _)) hp

theorem dropLit_self (lit r : List Char) : dropLit lit (lit ++ r) = some r :=
  dropLit_eq_some.mpr rfl

theorem takeWhile_ne_append {c : Char} {a : List Char} (b : List Char)
    (h : c ∉ a) :
    (a ++ c :: b).takeWhile (fun d => d ≠ c) = a := by
  induction a with
  | nil =>
    rw [List.nil_append]
    exact List.takeWhile_cons_of_neg (by simp)
  | cons d a' ih =>
    have hd : d ≠ c := fun hdc => h (by rw [hdc]; exact List.mem_cons_self c a')
    have h' : c ∉ a' := fun hc => h (List.mem_cons_of_mem d hc)
    rw [List.cons_append, List.takeWhile_cons_of_pos (by simpa using hd), ih h']

theorem dropWhile_ne_append {c : Char} {a : List Char} (b : List Char)
    (h : c ∉ a) :
    (a ++ c :: b).dropWhile (fun d => d ≠ c) = c :: b := by
  induction a with
  | nil =>
    rw [List.nil_append]
    exact List.dropWhile_cons_of_neg (by simp)
  | cons d a' ih =>
    have hd : d ≠ c := fun hdc => h (by rw [hdc]; exact List.mem_cons_self c a')
    have h' : c ∉ a' := fun hc => h (List.mem_cons_of_mem d hc)
    rw [List.cons_append, List.dropWhile_cons_of_pos (by simpa using hd), ih h']

theorem dropWhile_head_false {α : Type} {p : α → Bool} :
    ∀ {l rest : List α} {y : α}, l.dropWhile p = y :: rest →
      p y = false := by
  intro l
  induction l with
  | nil => intro rest y h; simp at h
  | cons d ds ih =>
    intro rest y h
    rw [List.dropWhile_cons] at h
    by_cases hp : p d = true
    · rw [if_pos hp] at h
      exact ih h
    · rw [if_neg hp] at h
      obtain ⟨rfl, -⟩ : d = y ∧ ds = rest := by simpa using h
      simpa using hp

theorem splitOn1_eq_some {c : Char} {l a b : List Char} :
    splitOn1 c l = some (a, b) ↔ l = a ++ c :: b ∧ c ∉ a := by
  constructor
  · intro h
    unfold splitOn1 at h
    cases hdw : l.dropWhile (fun d => d ≠ c) with
    | nil => rw [hdw] at h; exact absurd h (by simp)
    | cons x rest =>
      rw [hdw] at h
      obtain ⟨ha, hb⟩ : l.takeWhile (fun d => d ≠ c) = a ∧ rest = b := by
        simpa using h
      have hx : x = c := by simpa using dropWhile_head_false hdw
      have hl : l.takeWhile (fun d => d ≠ c) ++
          l.dropWhile (fun d => d ≠ c) = l :=
        List.takeWhile_append_dropWhile _ _
      refine ⟨?_, ?_⟩
      · rw [← hl, hdw, ha, hb, hx]
      · intro hc
        rw [← ha] at hc
        have := List.mem_takeWhile_imp hc
        simp at this
  · rintro ⟨rfl, h⟩
    unfold splitOn1
    rw [dropWhile_ne_append b h, takeWhile_ne_append b h]

theorem splitOn1_cons (c : Char) (a b : List Char) (h : c ∉ a) :
    splitOn1 c (a ++ c :: b) = some (a, b) :=
  splitOn1_eq_some.mpr ⟨rfl, h⟩

theorem splitOn1_eq_none {c : Char} {l : List Char} :
    splitOn1 c l = none ↔ c ∉ l := by
  unfold splitOn1
  cases hdw : l.dropWhile (fun d => d ≠ c) with
  | nil =>
    constructor
    · intro _ hc
      have := List.dropWhile_eq_nil_iff.mp hdw c hc
      simp at this
    · intro _; rfl
  | cons x rest =>
    constructor
    · intro h; exact absurd h (by simp)
    · intro hc
      exfalso
      have hx : x = c := by simpa using dropWhile_head_false hdw
      have hmem : x ∈ l := by
        have hx2 : x ∈ l.dropWhile (fun d => d ≠ c) := by rw [hdw]; simp
        exact (List.dropWhile_sublist _).subset hx2
      exact hc (hx ▸ hmem)

/-- A match extracted by the pattern always satisfies these class
constraints: `altText` excludes `]`, `formatTag` is nonempty and excludes
`;`, `payload` is nonempty and excludes `)`. -/
def goodMatch (m : ImgMatch) : Prop :=
  ']' ∉ m.alt ∧ m.fmt ≠ [] ∧ ';' ∉ m.fmt ∧ m.payload ≠ [] ∧ ')' ∉ m.payload

theorem renderMatch_shape (m : ImgMatch) :
    renderMatch m = "![".data ++ (m.alt ++ ']' ::
      ("(data:image/".data ++ (m.fmt ++ ';' ::
        ("base64,".data ++ (m.payload ++ [')']))))) := by
  simp [renderMatch]

/-- `matchHere` succeeds on any text starting with a well-formed image
block, returning its groups and the text after the block. -/
theorem matchHere_render {m : ImgMatch} (rest : List Char)
    (hg : goodMatch m) : matchHere (renderMatch m ++ rest) = some (m, rest) := by
  obtain ⟨halt, hf, hfmt, hp0, hpay⟩ := hg
  have e5 : stagePay ("base64,".data ++ (m.payload ++ ')' :: rest)) =
      some (m.payload, rest) := by
    simp only [stagePay, dropLit_self, splitOn1_cons ')' m.payload rest hpay,
      if_neg hp0]
  have e4 : stageFmt (m.fmt ++ ';' ::
      ("base64,".data ++ (m.payload ++ ')' :: rest))) =
      some (m.fmt, m.payload, rest) := by
    simp only [stageFmt, splitOn1_cons ';' m.fmt _ hfmt, if_neg hf, e5]
  have e3 : stageUri ("(data:image/".data ++ (m.fmt ++ ';' ::
      ("base64,".data ++ (m.payload ++ ')' :: rest)))) =
      some (m.fmt, m.payload, rest) := by
    simp only [stageUri, dropLit_self, e4]
  have e1 : dropLit "![".data (renderMatch m ++ rest) =
      some (m.alt ++ ']' :: ("(data:image/".data ++ (m.fmt ++ ';' ::
        ("base64,".data ++ (m.payload ++ ')' :: rest))))) := by
    apply dropLit_eq_some.mpr
    rw [renderMatch_shape]
    simp
  have e2 : splitOn1 ']' (m.alt ++ ']' :: ("(data:image/".data ++ (m.fmt ++
      ';' :: ("base64,".data ++ (m.payload ++ ')' :: rest))))) =
      some (m.alt, "(data:image/".data ++ (m.fmt ++ ';' ::
        ("base64,".data ++ (m.payload ++ ')' :: rest)))) :=
    splitOn1_cons ']' m.alt _ halt
  simp only [matchHere, e1, e2, e3]

/-- Conversely, a successful `matchHere` yields well-formed groups that
reassemble, with the leftover, into the input. -/
theorem matchHere_eq_some {l : List Char} {m : ImgMatch} {rest : List Char} :
    matchHere l = some (m, rest) ↔
      l = renderMatch m ++ rest ∧ goodMatch m := by
  constructor
  · intro h
    unfold matchHere at h
    cases hd : dropLit "![".data l with
    | none => rw [hd] at h; exact absurd h (by simp)
    | some r1 =>
      simp only [hd] at h
      cases hs : splitOn1 ']' r1 with
      | none => rw [hs] at h; exact absurd h (by simp)
      | some p =>
        obtain ⟨alt, r3⟩ := p
        simp only [hs] at h
        cases hu : stageUri r3 with
        | none => rw [hu] at h; exact absurd h (by simp)
        | some q =>
          obtain ⟨fmt, pay, r9⟩ := q
          simp only [hu] at h
          obtain ⟨hm, hr⟩ : (⟨alt, fmt, pay⟩ : ImgMatch) = m ∧ r9 = rest := by
            simpa using h
          suffices hkey : l = renderMatch ⟨alt, fmt, pay⟩ ++ r9 ∧
              goodMatch ⟨alt, fmt, pay⟩ by
            rw [← hm, ← hr]; exact hkey
          obtain ⟨h1, halt⟩ := splitOn1_eq_some.mp hs
          unfold stageUri at hu
          cases hd4 : dropLit "(data:image/".data r3 with
          | none => rw [hd4] at hu; exact absurd hu (by simp)
          | some r4 =>
            simp only [hd4] at hu
            unfold stageFmt at hu
            cases hs6 : splitOn1 ';' r4 with
            | none => rw [hs6] at hu; exact absurd hu (by simp)
            | some p6 =>
              obtain ⟨fmt', r6⟩ := p6
              simp only [hs6] at hu
              by_cases hfe0 : fmt' = []
              · rw [if_pos hfe0] at hu; exact absurd hu (by simp)
              · rw [if_neg hfe0] at hu
                cases hsp : stagePay r6 with
                | none => rw [hsp] at hu; exact absurd hu (by simp)
                | some pp =>
                  obtain ⟨pay', r9'⟩ := pp
                  simp only [hsp] at hu
                  obtain ⟨hfe, hpe, hre⟩ :
                      fmt' = fmt ∧ pay' = pay ∧ r9' = r9 := by
                    simpa using hu
                  subst hfe; subst hpe; subst hre
                  unfold stagePay at hsp
                  cases hd7 : dropLit "base64,".data r6 with
                  | none => rw [hd7] at hsp; exact absurd hsp (by simp)
                  | some r7 =>
                    simp only [hd7] at hsp
                    cases hs9 : splitOn1 ')' r7 with
                    | none => rw [hs9] at hsp; exact absurd hsp (by simp)
                    | some p9 =>
                      obtain ⟨pay'', r9''⟩ := p9
                      simp only [hs9] at hsp
                      by_cases hpe2 : pay'' = []
                      · rw [if_pos hpe2] at hsp; exact absurd hsp (by simp)
                      · rw [if_neg hpe2] at hsp
                        obtain ⟨hp2, hr2⟩ : pay'' = pay' ∧ r9'' = r9' := by
                          simpa using hsp
                        subst hp2; subst hr2
                        obtain ⟨h7, hpay⟩ := splitOn1_eq_some.mp hs9
                        obtain ⟨h6, hfmt⟩ := splitOn1_eq_some.mp hs6
                        have h4 : r3 = "(data:image/".data ++ r4 :=
                          dropLit_eq_some.mp hd4
                        have h70 : r6 = "base64,".data ++ r7 :=
                          dropLit_eq_some.mp hd7
                        have h0 : l = "![".data ++ r1 := dropLit_eq_some.mp hd
                        refine ⟨?_, halt, hfe0, hfmt, hpe2, hpay⟩
                        rw [renderMatch_shape]
                        simp only [h0, h1, h4, h6, h70, h7]
                        simp
  · rintro ⟨rfl, hg⟩
    exact matchHere_render rest hg

theorem matchHere_shrinks {l : List Char} {m : ImgMatch} {rest : List Char}
    (h : matchHere l = some (m, rest)) : rest.length < l.length := by
  obtain ⟨rfl, -⟩ := matchHere_eq_some.mp h
  rw [renderMatch_shape]
  simp
  omega

/-- The single left-to-right scan of `re.sub`: at each position try the
pattern; on success consume the match, otherwise keep one character. -/
def scanParts (l : List Char) : List Part :=
  match l with
  | [] => []
  | c :: cs =>
    match h : matchHere (c :: cs) with
    | some (m, rest) => Part.img m :: scanParts rest
    | none => Part.raw c :: scanParts cs
termination_by l.length
decreasing_by
  · exact matchHere_shrinks h
  · simp

/-- Reassemble a scanned document, applying `f` to each match. -/
def applyParts (f : ImgMatch → List Char) : List Part → List Char
  | [] => []
  | Part.raw c :: ps => c :: applyParts f ps
  | Part.img m :: ps => f m ++ applyParts f ps

/-- `re.sub(pattern, f, l)` for our fixed pattern. -/
def reSub (f : ImgMatch → List Char) (l : List Char) : List Char :=
  applyParts f (scanParts l)

/-- `resize_base64_images` (webserver.py lines 27-108).  `pil` is the
module-level `PIL_AVAILABLE` flag: when the import failed the function
returns its input untouched (lines 38-39). -/
def resize_base64_images (pil : Bool) (C : Codec) (max_size_kb : Int)
    (markdown_content : List Char) : List Char :=
  if pil then reSub (resize_image_match C max_size_kb) markdown_content
  else markdown_content

/-! ## The HTTP surface

`convert_file` (`POST /convert`, webserver.py lines 115-176) and
`convert_text` (`POST /convert_text`, lines 178-222).  The transport layer
(Flask) and the conversion engine (MarkItDown with `StreamInfo` hints,
werkzeug's `secure_filename`) are external; the conversion pipeline from a
validated request to markdown text is modelled as an opaque function that
either returns text or raises (`Except`). -/

def isPySpace (c : Char) : Bool :=
  c = ' ' || c = '\t' || c = '\n' || c = '\r' || c = '\x0b' || c = '\x0c'

def pyDigits : List Char → Option Nat
  | [] => none
  | l => go l 0
where
  go : List Char → Nat → Option Nat
    | [], acc => some acc
    | c :: cs, acc =>
      if '0' ≤ c ∧ c ≤ '9' then go cs (acc * 10 + (c.toNat - '0'.toNat))
      else none

/-- `Modelled from the spec:` Python's built-in `int(str)` (stdlib,
external): surrounding whitespace is stripped, an optional sign precedes a
nonempty run of decimal digits; anything else raises `ValueError`
(= `none`).  Exotic forms (underscore separators, non-ASCII digits) are not
exercised by any claim. -/
def pyIntOfString (s : List Char) : Option Int :=
  let t := ((s.dropWhile isPySpace).reverse.dropWhile isPySpace).reverse
  match t with
  | '+' :: r => (pyDigits r).map Int.ofNat
  | '-' :: r => (pyDigits r).map (fun n => -(n : Int))
  | r => (pyDigits r).map Int.ofNat

/-- A JSON value as relevant to `data.get('max_size_kb', 200)`: the claims
exercise strings, integers and null. -/
inductive Jv where
  | jstr : List Char → Jv
  | jint : Int → Jv
  | jnull : Jv
deriving DecidableEq

/-- `int(v)` on a JSON-decoded value: `ValueError` on a non-numeric string,
`TypeError` on `None`; both are caught by the handler. -/
def pyIntOfJv : Jv → Option Int
  | Jv.jstr s => pyIntOfString s
  | Jv.jint n => some n
  | Jv.jnull => none

structure UploadedFile where
  filename : List Char
  content : List Byte
deriving DecidableEq

/-- A parsed `POST /convert` request: presence of the `file` part and the
raw string form fields. -/
structure FileRequest where
  file : Option UploadedFile
  keep_data_uris : Option (List Char)
  max_size_kb : Option (List Char)

/-- The JSON body of a parsed `POST /convert_text` request; `text = none`
models a JSON object without a `'text'` key. -/
structure TextBody where
  text : Option (List Char)
  content_type : Option (List Char)
  max_size_kb : Option Jv

inductive RespBody where
  /-- raw markdown text returned with `200` -/
  | markdown : List Char → RespBody
  /-- `jsonify({'error': msg})` -/
  | jsonError : List Char → RespBody
  /-- `jsonify({'success': False, 'error': str(e)})` -/
  | jsonFailure : List Char → RespBody
deriving DecidableEq

structure Response where
  status : Nat
  body : RespBody
deriving DecidableEq

/-- The conversion pipeline of `/convert` after validation: reading the
upload, `secure_filename`, extension sniffing, `md.convert_stream` with
`keep_data_uris` — all external collaborators.  `Except.error` models any
exception, which the route's `try` turns into a 500. -/
abbrev FileConverter := UploadedFile → Bool → Except (List Char) (List Char)

/-- `convert_file` (webserver.py lines 115-176). -/
def convert_file (conv : FileConverter) (pil : Bool) (C : Codec)
    (req : FileRequest) : Response :=
  match req.file with
  | none => ⟨400, RespBody.jsonError "No file provided".data⟩
  | some file =>
    if file.filename = [] then ⟨400, RespBody.jsonError "No file selected".data⟩
    else
      let keep_data_uris :=
        (req.keep_data_uris.getD "false".data).map Char.toLower = "true".data
      match pyIntOfString (req.max_size_kb.getD "200".data) with
      | none =>
        ⟨400, RespBody.jsonError "max_size_kb must be a valid integer".data⟩
      | some max_size_kb =>
        match conv file keep_data_uris with
        | Except.error e => ⟨500, RespBody.jsonFailure e⟩
        | Except.ok text =>
          ⟨200, RespBody.markdown (resize_base64_images pil C max_size_kb text)⟩

/-- The conversion pipeline of `/convert_text`: UTF-8 encoding the text and
`md.convert_stream` with a mimetype hint, both external. -/
abbrev TextConverter := List Char → List Char → Except (List Char) (List Char)

/-- `convert_text` (webserver.py lines 178-222).  The argument is the
result of `request.get_json()`: `none` models a missing/falsy body. -/
def convert_text (conv : TextConverter) (pil : Bool) (C : Codec)
    (req : Option TextBody) : Response :=
  match req with
  | none => ⟨400, RespBody.jsonError "No text content provided".data⟩
  | some data =>
    match data.text with
    | none => ⟨400, RespBody.jsonError "No text content provided".data⟩
    | some text_content =>
      let content_type := data.content_type.getD "text/plain".data
      match pyIntOfJv (data.max_size_kb.getD (Jv.jint 200)) with
      | none =>
        ⟨400, RespBody.jsonError "max_size_kb must be a valid integer".data⟩
      | some max_size_kb =>
        match conv text_content content_type with
        | Except.error e => ⟨500, RespBody.jsonFailure e⟩
        | Except.ok md =>
          ⟨200, RespBody.markdown (resize_base64_images pil C max_size_kb md)⟩

/-! ## Facts about the base64 model -/

theorem b64Index_tbl : ∀ i < 64, b64Index (b64tbl i) = some i := by decide

theorem b64tbl_ne_eqsign : ∀ i < 64, b64tbl i ≠ '=' := by decide

theorem b64tbl_ne_paren : ∀ i < 64, b64tbl i ≠ ')' := by decide

theorem b64tbl_isB64 (i : Nat) (h : i < 64) : isB64 (b64tbl i) = true := by
  unfold isB64
  rw [b64Index_tbl i h]
  rfl

/-- Every character `b64encode` emits is in the alphabet or is padding. -/
theorem b64encode_mem {bs : List Byte} {c : Char} (h : c ∈ b64encode bs) :
    isB64 c = true ∨ c = '=' := by
  induction bs using b64encode.induct with
  | case1 => simp [b64encode] at h
  | case2 a =>
    have ha := a.isLt
    simp only [b64encode, List.mem_cons, List.mem_singleton] at h
    rcases h with rfl | rfl | rfl | rfl | h
    · exact Or.inl (b64tbl_isB64 _ (by omega))
    · exact Or.inl (b64tbl_isB64 _ (by omega))
    · exact Or.inr rfl
    · exact Or.inr rfl
    · simp at h
  | case3 a b =>
    have ha := a.isLt
    have hb := b.isLt
    simp only [b64encode, List.mem_cons, List.mem_singleton] at h
    rcases h with rfl | rfl | rfl | rfl | h
    · exact Or.inl (b64tbl_isB64 _ (by omega))
    · exact Or.inl (b64tbl_isB64 _ (by omega))
    · exact Or.inl (b64tbl_isB64 _ (by omega))
    · exact Or.inr rfl
    · simp at h
  | case4 a b c2 rest ih =>
    have ha := a.isLt
    have hb := b.isLt
    have hc := c2.isLt
    simp only [b64encode, encTriple, List.cons_append, List.nil_append,
      List.mem_cons] at h
    rcases h with rfl | rfl | rfl | rfl | h
    · exact Or.inl (b64tbl_isB64 _ (by omega))
    · exact Or.inl (b64tbl_isB64 _ (by omega))
    · exact Or.inl (b64tbl_isB64 _ (by omega))
    · exact Or.inl (b64tbl_isB64 _ (by omega))
    · exact ih h

theorem b64encode_filter (bs : List Byte) :
    (b64encode bs).filter (fun c => isB64 c || c = '=') = b64encode bs := by
  rw [List.filter_eq_self]
  intro c hc
  rcases b64encode_mem hc with h | h
  · simp [h]
  · simp [h]

theorem b64encode_no_paren {bs : List Byte} : ')' ∉ b64encode bs := by
  intro h
  rcases b64encode_mem h with hb | hb
  · have hf : isB64 ')' = false := by decide
    rw [hf] at hb
    exact absurd hb (by decide)
  · exact absurd hb (by decide)

theorem b64encode_ne_nil {bs : List Byte} (h : bs ≠ []) :
    b64encode bs ≠ [] := by
  match bs with
  | [] => exact absurd rfl h
  | [a] => simp [b64encode]
  | [a, b] => simp [b64encode]
  | a :: b :: c :: rest => simp [b64encode, encTriple]

theorem encTriple_decode (a b c : Byte) (tail : List Char) (bs' : List Byte)
    (htail : decQuads tail = some bs') :
    decQuads (encTriple a b c ++ tail) = some (a :: b :: c :: bs') := by
  have ha := a.isLt
  have hb := b.isLt
  have hc := c.isLt
  have e1 := b64Index_tbl (a.val / 4) (by omega)
  have e2 := b64Index_tbl (a.val % 4 * 16 + b.val / 16) (by omega)
  have e3 := b64Index_tbl (b.val % 16 * 4 + c.val / 64) (by omega)
  have e4 := b64Index_tbl (c.val % 64) (by omega)
  have n3 := b64tbl_ne_eqsign (b.val % 16 * 4 + c.val / 64) (by omega)
  have n4 := b64tbl_ne_eqsign (c.val % 64) (by omega)
  simp only [encTriple, List.cons_append, List.nil_append, List.append_eq,
    decQuads, e1, e2, e3, e4, if_neg n3, if_neg n4, htail]
  simp only [Option.some.injEq, List.cons.injEq]
  refine ⟨?_, ?_, ?_, trivial⟩ <;> (apply Fin.ext; simp [byteOf]; omega)

theorem decQuads_encode : ∀ (n : Nat) (bs : List Byte), bs.length ≤ n →
    decQuads (b64encode bs) = some bs := by
  intro n
  induction n with
  | zero =>
    intro bs h
    obtain rfl : bs = [] := by
      cases bs with
      | nil => rfl
      | cons a t => simp at h
    rfl
  | succ n ih =>
    intro bs h
    match bs with
    | [] => rfl
    | [a] =>
      have ha := a.isLt
      have e1 := b64Index_tbl (a.val / 4) (by omega)
      have e2 := b64Index_tbl (a.val % 4 * 16) (by omega)
      simp only [b64encode, decQuads, e1, e2, if_pos rfl, and_self,
        if_pos (And.intro rfl rfl)]
      refine congrArg some ?_
      refine congrArg (fun x => [x]) ?_
      apply Fin.ext
      simp [byteOf]
      omega
    | [a, b] =>
      have ha := a.isLt
      have hb := b.isLt
      have e1 := b64Index_tbl (a.val / 4) (by omega)
      have e2 := b64Index_tbl (a.val % 4 * 16 + b.val / 16) (by omega)
      have e3 := b64Index_tbl (b.val % 16 * 4) (by omega)
      have n3 := b64tbl_ne_eqsign (b.val % 16 * 4) (by omega)
      simp only [b64encode, decQuads, e1, e2, e3, if_neg n3, if_pos rfl]
      refine congrArg some ?_
      refine congrArg₂ (fun x y => [x, y]) ?_ ?_ <;>
        (apply Fin.ext; simp [byteOf]; omega)
    | a :: b :: c :: rest =>
      have hr : rest.length ≤ n := by simp at h; omega
      rw [show b64encode (a :: b :: c :: rest) =
        encTriple a b c ++ b64encode rest from rfl]
      exact encTriple_decode a b c _ _ (ih rest hr)

/-- Python's `b64decode` inverts `b64encode`. -/
theorem b64decode_encode (bs : List Byte) :
    b64decode (b64encode bs) = some bs := by
  unfold b64decode
  rw [b64encode_filter]
  exact decQuads_encode bs.length bs le_rfl

/-! ## Facts about the shrink loop -/

/-- The loop only succeeds with data that meets the budget. -/
theorem shrinkLoop_some_le {C : Codec} {max : Int} {img : PImage}
    {fmt : List Char} :
    ∀ {n : Nat} {s : ℚ} {d : List Byte}, shrinkLoop C max img fmt n s = some d →
      (d.length : ℚ) / 1024 ≤ (max : ℚ) := by
  intro n
  induction n with
  | zero => intro s d h; simp [shrinkLoop] at h
  | succ n ih =>
    intro s d h
    unfold shrinkLoop at h
    dsimp only at h
    cases hr : C.resize img ((⌊(img.width : ℚ) * s⌋).toNat)
        ((⌊(img.height : ℚ) * s⌋).toNat) with
    | none => rw [hr] at h; exact absurd h (by simp)
    | some resized =>
      simp only [hr] at h
      cases hs : saveOf C resized (saveFormatOf fmt) with
      | none => rw [hs] at h; exact absurd h (by simp)
      | some nd =>
        simp only [hs] at h
        by_cases hle : (nd.length : ℚ) / 1024 ≤ (max : ℚ)
        · rw [if_pos hle] at h
          obtain rfl : nd = d := by simpa using h
          exact hle
        · rw [if_neg hle] at h
          exact ih h

/-- Successful loop output comes from one of the codec's save calls. -/
theorem shrinkLoop_some_save {C : Codec} {max : Int} {img : PImage}
    {fmt : List Char} :
    ∀ {n : Nat} {s : ℚ} {d : List Byte}, shrinkLoop C max img fmt n s = some d →
      ∃ img2, saveOf C img2 (saveFormatOf fmt) = some d := by
  intro n
  induction n with
  | zero => intro s d h; simp [shrinkLoop] at h
  | succ n ih =>
    intro s d h
    unfold shrinkLoop at h
    dsimp only at h
    cases hr : C.resize img ((⌊(img.width : ℚ) * s⌋).toNat)
        ((⌊(img.height : ℚ) * s⌋).toNat) with
    | none => rw [hr] at h; exact absurd h (by simp)
    | some resized =>
      simp only [hr] at h
      cases hs : saveOf C resized (saveFormatOf fmt) with
      | none => rw [hs] at h; exact absurd h (by simp)
      | some nd =>
        simp only [hs] at h
        by_cases hle : (nd.length : ℚ) / 1024 ≤ (max : ℚ)
        · rw [if_pos hle] at h
          obtain rfl : nd = d := by simpa using h
          exact ⟨resized, hs⟩
        · rw [if_neg hle] at h
          exact ih h

/-- Attempt `i` of the loop targets dimensions
`(⌊w·0.8^i⌋, ⌊h·0.8^i⌋)`, computed from the original image. -/
def attemptDims (image : PImage) (i : Nat) : Nat × Nat :=
  ((⌊(image.width : ℚ) * (4 / 5 : ℚ) ^ i⌋).toNat,
   (⌊(image.height : ℚ) * (4 / 5 : ℚ) ^ i⌋).toNat)

/-- The shrink loop written as an explicit, bounded sequence of attempts,
each resizing the original image to `attemptDims image i`. -/
def attemptSeq (C : Codec) (max : Int) (image : PImage) (fmt : List Char) :
    List Nat → Option (List Byte)
  | [] => none
  | i :: is =>
    match C.resize image (attemptDims image i).1 (attemptDims image i).2 with
    | none => none
    | some resized =>
      match saveOf C resized (saveFormatOf fmt) with
      | none => none
      | some d =>
        if (d.length : ℚ) / 1024 ≤ (max : ℚ) then some d
        else attemptSeq C max image fmt is

theorem shrinkLoop_eq_attemptSeq_aux (C : Codec) (max : Int) (img : PImage)
    (fmt : List Char) :
    ∀ (n j : Nat), shrinkLoop C max img fmt n ((4 / 5 : ℚ) ^ (j + 1)) =
      attemptSeq C max img fmt (List.range' (j + 1) n) := by
  intro n
  induction n with
  | zero => intro j; rfl
  | succ n ih =>
    intro j
    rw [List.range'_succ]
    unfold shrinkLoop attemptSeq
    unfold attemptDims
    dsimp only
    cases hr : C.resize img ((⌊(img.width : ℚ) * (4 / 5 : ℚ) ^ (j + 1)⌋).toNat)
        ((⌊(img.height : ℚ) * (4 / 5 : ℚ) ^ (j + 1)⌋).toNat) with
    | none => simp [hr]
    | some resized =>
      simp only [hr]
      cases hs : saveOf C resized (saveFormatOf fmt) with
      | none => simp [hs]
      | some nd =>
        simp only [hs]
        by_cases hle : (nd.length : ℚ) / 1024 ≤ (max : ℚ)
        · rw [if_pos hle, if_pos hle]
        · rw [if_neg hle, if_neg hle]
          rw [show (4 / 5 : ℚ) ^ (j + 1) * (4 / 5) = (4 / 5 : ℚ) ^ (j + 2) from
            (pow_succ (4 / 5 : ℚ) (j + 1)).symm]
          exact ih (j + 1)

/-- The loop as called (5 iterations, starting scale 0.8) is the attempt
sequence for `i = 1, 2, 3, 4, 5`. -/
theorem shrinkLoop_eq_attempts (C : Codec) (max : Int) (img : PImage)
    (fmt : List Char) :
    shrinkLoop C max img fmt 5 (4 / 5 : ℚ) =
      attemptSeq C max img fmt [1, 2, 3, 4, 5] := by
  have h := shrinkLoop_eq_attemptSeq_aux C max img fmt 5 0
  simpa using h

/-- Target dimensions only shrink from one attempt to the next. -/
theorem attemptDims_antitone (image : PImage) (i : Nat) :
    (attemptDims image (i + 1)).1 ≤ (attemptDims image i).1 ∧
    (attemptDims image (i + 1)).2 ≤ (attemptDims image i).2 := by
  have hpow : (4 / 5 : ℚ) ^ (i + 1) ≤ (4 / 5 : ℚ) ^ i :=
    pow_le_pow_of_le_one (by norm_num) (by norm_num) (Nat.le_succ i)
  constructor <;>
    exact Int.toNat_le_toNat (Int.floor_le_floor
      (mul_le_mul_of_nonneg_left hpow (by positivity)))

/-! ## Case analysis of `resize_image_match` -/

theorem rim_decode_none {C : Codec} {k : Int} {m : ImgMatch}
    (h : b64decode m.payload = none) :
    resize_image_match C k m = renderMatch m := by
  unfold resize_image_match
  rw [h]

theorem rim_under {C : Codec} {k : Int} {m : ImgMatch} {d : List Byte}
    (h : b64decode m.payload = some d)
    (hle : (d.length : ℚ) / 1024 ≤ (k : ℚ)) :
    resize_image_match C k m = renderMatch m := by
  unfold resize_image_match
  rw [h]
  simp only [if_pos hle]

theorem rim_open_none {C : Codec} {k : Int} {m : ImgMatch} {d : List Byte}
    (h : b64decode m.payload = some d)
    (hgt : ¬ (d.length : ℚ) / 1024 ≤ (k : ℚ))
    (ho : C.imgOpen d = none) :
    resize_image_match C k m = renderMatch m := by
  unfold resize_image_match
  rw [h]
  simp only [if_neg hgt, ho]

theorem rim_loop_none {C : Codec} {k : Int} {m : ImgMatch} {d : List Byte}
    {img : PImage} (h : b64decode m.payload = some d)
    (hgt : ¬ (d.length : ℚ) / 1024 ≤ (k : ℚ))
    (ho : C.imgOpen d = some img)
    (hl : shrinkLoop C k img m.fmt 5 (4 / 5 : ℚ) = none) :
    resize_image_match C k m = renderMatch m := by
  unfold resize_image_match
  rw [h]
  simp only [if_neg hgt, ho, hl]

theorem rim_loop_some {C : Codec} {k : Int} {m : ImgMatch} {d : List Byte}
    {img : PImage} {nd : List Byte} (h : b64decode m.payload = some d)
    (hgt : ¬ (d.length : ℚ) / 1024 ≤ (k : ℚ))
    (ho : C.imgOpen d = some img)
    (hl : shrinkLoop C k img m.fmt 5 (4 / 5 : ℚ) = some nd) :
    resize_image_match C k m = renderMatch ⟨m.alt, m.fmt, b64encode nd⟩ := by
  unfold resize_image_match
  rw [h]
  simp only [if_neg hgt, ho, hl]

/-! ## Stability of the scan under payload replacement

A failed match attempt at some position is decided before the text can
depend on the payload of the next image block: replacing a block's payload
by another delimiter-free nonempty payload can neither create nor destroy
matches at earlier positions.  This is the key to idempotence of the
whole scan. -/

theorem dropLit_append_left {lit u z : List Char} (hle : lit.length ≤ u.length) :
    dropLit lit (u ++ z) = (dropLit lit u).map (· ++ z) := by
  unfold dropLit
  by_cases hp : lit.isPrefixOf u
  · have hpu : lit <+: u := List.isPrefixOf_iff_prefix.mp hp
    have hpz : lit.isPrefixOf (u ++ z) :=
      List.isPrefixOf_iff_prefix.mpr (hpu.trans (List.prefix_append u z))
    rw [if_pos hp, if_pos hpz, Option.map_some']
    rw [List.drop_append_of_le_length hle]
  · have hpz : ¬ lit.isPrefixOf (u ++ z) := by
      intro hc
      apply hp
      apply List.isPrefixOf_iff_prefix.mpr
      have hc' : lit <+: u ++ z := List.isPrefixOf_iff_prefix.mp hc
      have ht : lit = (u ++ z).take lit.length := List.prefix_iff_eq_take.mp hc'
      rw [List.take_append_of_le_length hle] at ht
      exact List.prefix_iff_eq_take.mpr ht
    rw [if_neg hp, if_neg hpz, Option.map_none']

theorem splitOn1_of_mem {c : Char} {l : List Char} (h : c ∈ l) :
    ∃ a b, splitOn1 c l = some (a, b) ∧ l = a ++ c :: b ∧ c ∉ a := by
  obtain ⟨p, hs⟩ : ∃ p, splitOn1 c l = some p := by
    cases hsp : splitOn1 c l with
    | none => exact absurd (splitOn1_eq_none.mp hsp) (by simpa using h)
    | some p => exact ⟨p, rfl⟩
  obtain ⟨a, b⟩ := p
  obtain ⟨ha, hna⟩ := splitOn1_eq_some.mp hs
  exact ⟨a, b, hs, ha, hna⟩

theorem matchHere_head_none {x y : Char} {t : List Char}
    (h : ¬(x = '!' ∧ y = '[')) : matchHere (x :: y :: t) = none := by
  have hnp : ¬ "![".data.isPrefixOf (x :: y :: t) = true := by
    intro hp
    obtain ⟨u, hu⟩ := List.isPrefixOf_iff_prefix.mp hp
    have hlit : "![".data = ['!', '['] := rfl
    rw [hlit] at hu
    simp only [List.cons_append, List.nil_append, List.cons.injEq] at hu
    exact h ⟨hu.1.symm, hu.2.1.symm⟩
  have hd : dropLit "![".data (x :: y :: t) = none := by
    unfold dropLit
    rw [if_neg hnp]
  unfold matchHere
  rw [hd]

theorem matchHere_isNone_plumb {l r1 a z : List Char}
    (hd : dropLit "![".data l = some r1)
    (hs : splitOn1 ']' r1 = some (a, z)) :
    (matchHere l).isNone = (stageUri z).isNone := by
  unfold matchHere
  simp only [hd, hs]
  cases hu : stageUri z with
  | none => simp
  | some q => obtain ⟨f, p, r⟩ := q; simp

theorem stagePay_transfer {hh d₁ r₁ d₂ r₂ : List Char}
    (hlen : 7 ≤ hh.length) (h1 : d₁ ≠ []) (hp1 : ')' ∉ d₁)
    (h2 : d₂ ≠ []) (hp2 : ')' ∉ d₂) :
    (stagePay (hh ++ (d₁ ++ ')' :: r₁))).isNone =
      (stagePay (hh ++ (d₂ ++ ')' :: r₂))).isNone := by
  have hlit : ("base64,".data).length ≤ hh.length := by
    simpa using hlen
  have e1 := @dropLit_append_left "base64,".data hh (d₁ ++ ')' :: r₁) hlit
  have e2 := @dropLit_append_left "base64,".data hh (d₂ ++ ')' :: r₂) hlit
  unfold stagePay
  rw [e1, e2]
  cases hd : dropLit "base64,".data hh with
  | none => simp
  | some hh' =>
    simp only [Option.map_some']
    by_cases hpar : ')' ∈ hh'
    · obtain ⟨a, b, _, hab, hna⟩ := splitOn1_of_mem hpar
      have s1 : splitOn1 ')' (hh' ++ (d₁ ++ ')' :: r₁)) =
          some (a, b ++ (d₁ ++ ')' :: r₁)) := by
        rw [hab, show (a ++ ')' :: b) ++ (d₁ ++ ')' :: r₁) =
          a ++ ')' :: (b ++ (d₁ ++ ')' :: r₁)) by simp]
        exact splitOn1_cons _ _ _ hna
      have s2 : splitOn1 ')' (hh' ++ (d₂ ++ ')' :: r₂)) =
          some (a, b ++ (d₂ ++ ')' :: r₂)) := by
        rw [hab, show (a ++ ')' :: b) ++ (d₂ ++ ')' :: r₂) =
          a ++ ')' :: (b ++ (d₂ ++ ')' :: r₂)) by simp]
        exact splitOn1_cons _ _ _ hna
      rw [s1, s2]
      by_cases ha : a = []
      · simp [ha]
      · simp [ha]
    · have hnp1 : ')' ∉ hh' ++ d₁ := by
        intro hc
        rcases List.mem_append.mp hc with hc | hc
        exacts [hpar hc, hp1 hc]
      have hnp2 : ')' ∉ hh' ++ d₂ := by
        intro hc
        rcases List.mem_append.mp hc with hc | hc
        exacts [hpar hc, hp2 hc]
      have s1 : splitOn1 ')' (hh' ++ (d₁ ++ ')' :: r₁)) =
          some (hh' ++ d₁, r₁) := by
        rw [show hh' ++ (d₁ ++ ')' :: r₁) = (hh' ++ d₁) ++ ')' :: r₁ by simp]
        exact splitOn1_cons _ _ _ hnp1
      have s2 : splitOn1 ')' (hh' ++ (d₂ ++ ')' :: r₂)) =
          some (hh' ++ d₂, r₂) := by
        rw [show hh' ++ (d₂ ++ ')' :: r₂) = (hh' ++ d₂) ++ ')' :: r₂ by simp]
        exact splitOn1_cons _ _ _ hnp2
      rw [s1, s2]
      have hne1 : hh' ++ d₁ ≠ [] := by
        intro hc
        exact h1 (List.append_eq_nil.mp hc).2
      have hne2 : hh' ++ d₂ ≠ [] := by
        intro hc
        exact h2 (List.append_eq_nil.mp hc).2
      simp [hne1, hne2]

theorem stageFmt_isNone_plumb {r4 f z : List Char}
    (hs : splitOn1 ';' r4 = some (f, z)) (hf : f ≠ []) :
    (stageFmt r4).isNone = (stagePay z).isNone := by
  unfold stageFmt
  simp only [hs, if_neg hf]
  cases hz : stagePay z with
  | none => simp
  | some p => obtain ⟨x, y⟩ := p; simp

theorem stageUri_isNone_plumb {r3 r4 : List Char}
    (hd : dropLit "(data:image/".data r3 = some r4) :
    (stageUri r3).isNone = (stageFmt r4).isNone := by
  unfold stageUri
  simp only [hd]

theorem stageUri_of_dropLit_none {r3 : List Char}
    (hd : dropLit "(data:image/".data r3 = none) : stageUri r3 = none := by
  unfold stageUri
  rw [hd]

theorem stageFmt_transfer {v fmt d₁ r₁ d₂ r₂ : List Char}
    (hf : fmt ≠ []) (hsc : ';' ∉ fmt) (h1 : d₁ ≠ []) (hp1 : ')' ∉ d₁)
    (h2 : d₂ ≠ []) (hp2 : ')' ∉ d₂) :
    (stageFmt (v ++ (fmt ++ ';' ::
      ("base64,".data ++ (d₁ ++ ')' :: r₁))))).isNone =
    (stageFmt (v ++ (fmt ++ ';' ::
      ("base64,".data ++ (d₂ ++ ')' :: r₂))))).isNone := by
  by_cases hv : ';' ∈ v
  · obtain ⟨a, b, _, hab, hna⟩ := splitOn1_of_mem hv
    have s1 : splitOn1 ';' (v ++ (fmt ++ ';' ::
        ("base64,".data ++ (d₁ ++ ')' :: r₁)))) =
        some (a, b ++ (fmt ++ ';' ::
          ("base64,".data ++ (d₁ ++ ')' :: r₁)))) := by
      rw [hab, show (a ++ ';' :: b) ++ (fmt ++ ';' ::
        ("base64,".data ++ (d₁ ++ ')' :: r₁))) = a ++ ';' :: (b ++ (fmt ++
          ';' :: ("base64,".data ++ (d₁ ++ ')' :: r₁)))) by simp]
      exact splitOn1_cons _ _ _ hna
    have s2 : splitOn1 ';' (v ++ (fmt ++ ';' ::
        ("base64,".data ++ (d₂ ++ ')' :: r₂)))) =
        some (a, b ++ (fmt ++ ';' ::
          ("base64,".data ++ (d₂ ++ ')' :: r₂)))) := by
      rw [hab, show (a ++ ';' :: b) ++ (fmt ++ ';' ::
        ("base64,".data ++ (d₂ ++ ')' :: r₂))) = a ++ ';' :: (b ++ (fmt ++
          ';' :: ("base64,".data ++ (d₂ ++ ')' :: r₂)))) by simp]
      exact splitOn1_cons _ _ _ hna
    by_cases ha : a = []
    · unfold stageFmt
      rw [s1, s2]
      simp [ha]
    · rw [stageFmt_isNone_plumb s1 ha, stageFmt_isNone_plumb s2 ha]
      have e1 : b ++ (fmt ++ ';' :: ("base64,".data ++ (d₁ ++ ')' :: r₁))) =
          (b ++ (fmt ++ ';' :: "base64,".data)) ++ (d₁ ++ ')' :: r₁) := by
        simp
      have e2 : b ++ (fmt ++ ';' :: ("base64,".data ++ (d₂ ++ ')' :: r₂))) =
          (b ++ (fmt ++ ';' :: "base64,".data)) ++ (d₂ ++ ')' :: r₂) := by
        simp
      rw [e1, e2]
      exact stagePay_transfer (by simp; omega) h1 hp1 h2 hp2
  · have hvf : ';' ∉ v ++ fmt := by
      intro hc
      rcases List.mem_append.mp hc with hc | hc
      exacts [hv hc, hsc hc]
    have e1 : v ++ (fmt ++ ';' :: ("base64,".data ++ (d₁ ++ ')' :: r₁))) =
        (v ++ fmt) ++ ';' :: ("base64,".data ++ (d₁ ++ ')' :: r₁)) := by
      simp
    have e2 : v ++ (fmt ++ ';' :: ("base64,".data ++ (d₂ ++ ')' :: r₂))) =
        (v ++ fmt) ++ ';' :: ("base64,".data ++ (d₂ ++ ')' :: r₂)) := by
      simp
    rw [e1, e2]
    have hvfne : v ++ fmt ≠ [] := by
      intro hc
      exact hf (List.append_eq_nil.mp hc).2
    have s1 := splitOn1_cons ';' (v ++ fmt)
      ("base64,".data ++ (d₁ ++ ')' :: r₁)) hvf
    have s2 := splitOn1_cons ';' (v ++ fmt)
      ("base64,".data ++ (d₂ ++ ')' :: r₂)) hvf
    rw [stageFmt_isNone_plumb s1 hvfne, stageFmt_isNone_plumb s2 hvfne]
    exact stagePay_transfer (by simp) h1 hp1 h2 hp2

theorem stageUri_transfer {v fmt d₁ r₁ d₂ r₂ : List Char}
    (hf : fmt ≠ []) (hsc : ';' ∉ fmt) (h1 : d₁ ≠ []) (hp1 : ')' ∉ d₁)
    (h2 : d₂ ≠ []) (hp2 : ')' ∉ d₂) :
    (stageUri (v ++ ("(data:image/".data ++ (fmt ++ ';' ::
      ("base64,".data ++ (d₁ ++ ')' :: r₁)))))).isNone =
    (stageUri (v ++ ("(data:image/".data ++ (fmt ++ ';' ::
      ("base64,".data ++ (d₂ ++ ')' :: r₂)))))).isNone := by
  have e1 : v ++ ("(data:image/".data ++ (fmt ++ ';' ::
      ("base64,".data ++ (d₁ ++ ')' :: r₁)))) =
      (v ++ "(data:image/".data) ++ (fmt ++ ';' ::
        ("base64,".data ++ (d₁ ++ ')' :: r₁))) := by
    simp
  have e2 : v ++ ("(data:image/".data ++ (fmt ++ ';' ::
      ("base64,".data ++ (d₂ ++ ')' :: r₂)))) =
      (v ++ "(data:image/".data) ++ (fmt ++ ';' ::
        ("base64,".data ++ (d₂ ++ ')' :: r₂))) := by
    simp
  rw [e1, e2]
  have hle : ("(data:image/".data).length ≤ (v ++ "(data:image/".data).length := by
    simp
  have m1 := @dropLit_append_left "(data:image/".data
    (v ++ "(data:image/".data)
    (fmt ++ ';' :: ("base64,".data ++ (d₁ ++ ')' :: r₁))) hle
  have m2 := @dropLit_append_left "(data:image/".data
    (v ++ "(data:image/".data)
    (fmt ++ ';' :: ("base64,".data ++ (d₂ ++ ')' :: r₂))) hle
  cases hd : dropLit "(data:image/".data (v ++ "(data:image/".data) with
  | none =>
    rw [hd] at m1 m2
    simp only [Option.map_none'] at m1 m2
    rw [stageUri_of_dropLit_none m1, stageUri_of_dropLit_none m2]
  | some u2 =>
    rw [hd] at m1 m2
    simp only [Option.map_some'] at m1 m2
    rw [stageUri_isNone_plumb m1, stageUri_isNone_plumb m2]
    exact stageFmt_transfer hf hsc h1 hp1 h2 hp2

/-- The central stability lemma: whether the pattern matches at a position
before an image block does not depend on that block's payload (as long as
both payloads are nonempty and free of `)`), nor on anything after the
block. -/
theorem matchHere_transfer {xs alt fmt d₁ r₁ d₂ r₂ : List Char}
    (halt : ']' ∉ alt) (hf : fmt ≠ []) (hsc : ';' ∉ fmt)
    (h1 : d₁ ≠ []) (hp1 : ')' ∉ d₁) (h2 : d₂ ≠ []) (hp2 : ')' ∉ d₂) :
    (matchHere (xs ++ (renderMatch ⟨alt, fmt, d₁⟩ ++ r₁))).isNone =
      (matchHere (xs ++ (renderMatch ⟨alt, fmt, d₂⟩ ++ r₂))).isNone := by
  have hbang : "![".data = ['!', '['] := rfl
  match xs with
  | [] =>
    rw [List.nil_append, List.nil_append]
    rw [matchHere_render r₁ ⟨halt, hf, hsc, h1, hp1⟩,
        matchHere_render r₂ ⟨halt, hf, hsc, h2, hp2⟩]
    rfl
  | [x] =>
    have g1 : [x] ++ (renderMatch ⟨alt, fmt, d₁⟩ ++ r₁) =
        x :: '!' :: ('[' :: (alt ++ ']' :: ("(data:image/".data ++ (fmt ++
          ';' :: ("base64,".data ++ (d₁ ++ ')' :: r₁)))))) := by
      rw [renderMatch_shape]
      simp [hbang]
    have g2 : [x] ++ (renderMatch ⟨alt, fmt, d₂⟩ ++ r₂) =
        x :: '!' :: ('[' :: (alt ++ ']' :: ("(data:image/".data ++ (fmt ++
          ';' :: ("base64,".data ++ (d₂ ++ ')' :: r₂)))))) := by
      rw [renderMatch_shape]
      simp [hbang]
    rw [g1, g2, matchHere_head_none (by simp), matchHere_head_none (by simp)]
  | x :: y :: xs1 =>
    by_cases hxy : x = '!' ∧ y = '['
    · obtain ⟨rfl, rfl⟩ := hxy
      have hd1 : dropLit "![".data
          (('!' :: '[' :: xs1) ++ (renderMatch ⟨alt, fmt, d₁⟩ ++ r₁)) =
          some ((xs1 ++ ('!' :: '[' :: alt)) ++ ']' ::
            ("(data:image/".data ++ (fmt ++ ';' ::
              ("base64,".data ++ (d₁ ++ ')' :: r₁))))) := by
        apply dropLit_eq_some.mpr
        rw [renderMatch_shape]
        simp [hbang]
      have hd2 : dropLit "![".data
          (('!' :: '[' :: xs1) ++ (renderMatch ⟨alt, fmt, d₂⟩ ++ r₂)) =
          some ((xs1 ++ ('!' :: '[' :: alt)) ++ ']' ::
            ("(data:image/".data ++ (fmt ++ ';' ::
              ("base64,".data ++ (d₂ ++ ')' :: r₂))))) := by
        apply dropLit_eq_some.mpr
        rw [renderMatch_shape]
        simp [hbang]
      by_cases hbr : ']' ∈ xs1 ++ ('!' :: '[' :: alt)
      · obtain ⟨a, b, _, hab, hna⟩ := splitOn1_of_mem hbr
        have s1 : splitOn1 ']' ((xs1 ++ ('!' :: '[' :: alt)) ++ ']' ::
            ("(data:image/".data ++ (fmt ++ ';' ::
              ("base64,".data ++ (d₁ ++ ')' :: r₁))))) =
            some (a, b ++ (']' :: ("(data:image/".data ++ (fmt ++ ';' ::
              ("base64,".data ++ (d₁ ++ ')' :: r₁)))))) := by
          rw [hab, show (a ++ ']' :: b) ++ ']' ::
            ("(data:image/".data ++ (fmt ++ ';' ::
              ("base64,".data ++ (d₁ ++ ')' :: r₁)))) =
            a ++ ']' :: (b ++ (']' :: ("(data:image/".data ++ (fmt ++ ';' ::
              ("base64,".data ++ (d₁ ++ ')' :: r₁)))))) by simp]
          exact splitOn1_cons _ _ _ hna
        have s2 : splitOn1 ']' ((xs1 ++ ('!' :: '[' :: alt)) ++ ']' ::
            ("(data:image/".data ++ (fmt ++ ';' ::
              ("base64,".data ++ (d₂ ++ ')' :: r₂))))) =
            some (a, b ++ (']' :: ("(data:image/".data ++ (fmt ++ ';' ::
              ("base64,".data ++ (d₂ ++ ')' :: r₂)))))) := by
          rw [hab, show (a ++ ']' :: b) ++ ']' ::
            ("(data:image/".data ++ (fmt ++ ';' ::
              ("base64,".data ++ (d₂ ++ ')' :: r₂)))) =
            a ++ ']' :: (b ++ (']' :: ("(data:image/".data ++ (fmt ++ ';' ::
              ("base64,".data ++ (d₂ ++ ')' :: r₂)))))) by simp]
          exact splitOn1_cons _ _ _ hna
        rw [matchHere_isNone_plumb hd1 s1, matchHere_isNone_plumb hd2 s2]
        have e1 : b ++ (']' :: ("(data:image/".data ++ (fmt ++ ';' ::
            ("base64,".data ++ (d₁ ++ ')' :: r₁))))) =
            (b ++ [']']) ++ ("(data:image/".data ++ (fmt ++ ';' ::
              ("base64,".data ++ (d₁ ++ ')' :: r₁)))) := by
          simp
        have e2 : b ++ (']' :: ("(data:image/".data ++ (fmt ++ ';' ::
            ("base64,".data ++ (d₂ ++ ')' :: r₂))))) =
            (b ++ [']']) ++ ("(data:image/".data ++ (fmt ++ ';' ::
              ("base64,".data ++ (d₂ ++ ')' :: r₂)))) := by
          simp
        rw [e1, e2]
        exact stageUri_transfer hf hsc h1 hp1 h2 hp2
      · have s1 := splitOn1_cons ']' (xs1 ++ ('!' :: '[' :: alt))
          ("(data:image/".data ++ (fmt ++ ';' ::
            ("base64,".data ++ (d₁ ++ ')' :: r₁)))) hbr
        have s2 := splitOn1_cons ']' (xs1 ++ ('!' :: '[' :: alt))
          ("(data:image/".data ++ (fmt ++ ';' ::
            ("base64,".data ++ (d₂ ++ ')' :: r₂)))) hbr
        rw [matchHere_isNone_plumb hd1 s1, matchHere_isNone_plumb hd2 s2]
        exact @stageUri_transfer [] fmt d₁ r₁ d₂ r₂ hf hsc h1 hp1 h2 hp2
    · rw [show (x :: y :: xs1) ++ (renderMatch ⟨alt, fmt, d₁⟩ ++ r₁) =
          x :: y :: (xs1 ++ (renderMatch ⟨alt, fmt, d₁⟩ ++ r₁)) from rfl]
      rw [show (x :: y :: xs1) ++ (renderMatch ⟨alt, fmt, d₂⟩ ++ r₂) =
          x :: y :: (xs1 ++ (renderMatch ⟨alt, fmt, d₂⟩ ++ r₂)) from rfl]
      rw [matchHere_head_none hxy, matchHere_head_none hxy]

/-! ## Scan equations and idempotence -/

theorem matchHere_nil : matchHere [] = none := rfl

theorem scanParts_nil : scanParts [] = [] := by
  rw [scanParts]

theorem scanParts_cons_none {c : Char} {cs : List Char}
    (h : matchHere (c :: cs) = none) :
    scanParts (c :: cs) = Part.raw c :: scanParts cs := by
  rw [scanParts]
  split
  · next heq => rw [h] at heq; exact absurd heq (by simp)
  · rfl

theorem scanParts_cons_some {c : Char} {cs : List Char} {m : ImgMatch}
    {rest : List Char} (h : matchHere (c :: cs) = some (m, rest)) :
    scanParts (c :: cs) = Part.img m :: scanParts rest := by
  rw [scanParts]
  split
  · next m2 rest2 heq =>
      rw [h] at heq
      obtain ⟨rfl, rfl⟩ : m = m2 ∧ rest = rest2 := by simpa using heq
      rfl
  · next heq => rw [h] at heq; exact absurd heq (by simp)

theorem reSub_nil (f : ImgMatch → List Char) : reSub f [] = [] := by
  unfold reSub
  rw [scanParts_nil]
  rfl

theorem reSub_cons_none (f : ImgMatch → List Char) {c : Char} {cs : List Char}
    (h : matchHere (c :: cs) = none) : reSub f (c :: cs) = c :: reSub f cs := by
  unfold reSub
  rw [scanParts_cons_none h]
  rfl

theorem reSub_of_match (f : ImgMatch → List Char) {l : List Char}
    {m : ImgMatch} {rest : List Char} (h : matchHere l = some (m, rest)) :
    reSub f l = f m ++ reSub f rest := by
  cases l with
  | nil => rw [matchHere_nil] at h; exact absurd h (by simp)
  | cons c cs =>
    unfold reSub
    rw [scanParts_cons_some h]
    rfl

/-- Substituting every match by itself reassembles the document: the scan
partitions the text, and all characters outside matches are preserved. -/
theorem reSub_render_id_aux : ∀ (n : Nat) (l : List Char), l.length ≤ n →
    reSub renderMatch l = l := by
  intro n
  induction n with
  | zero =>
    intro l h
    obtain rfl : l = [] := by
      cases l with
      | nil => rfl
      | cons c cs => simp at h
    exact reSub_nil _
  | succ n ih =>
    intro l h
    cases l with
    | nil => exact reSub_nil _
    | cons c cs =>
      cases hm : matchHere (c :: cs) with
      | none =>
        rw [reSub_cons_none _ hm, ih cs (by simp at h; omega)]
      | some p =>
        obtain ⟨m, rest⟩ := p
        rw [reSub_of_match _ hm]
        have hlen := matchHere_shrinks hm
        rw [ih rest (by simp at h; simp at hlen; omega)]
        exact ((matchHere_eq_some.mp hm).1).symm

theorem reSub_render_id (l : List Char) : reSub renderMatch l = l :=
  reSub_render_id_aux l.length l le_rfl

/-- If every byte string the codec's encoders emit is nonempty (true of any
real image encoder: every format writes at least a header), then
`resize_image_match` maps a well-formed block to a well-formed block, and
processing the result again leaves it unchanged. -/
theorem rim_fixpoint {C : Codec} {k : Int} {m : ImgMatch}
    (Hq : ∀ img f q d, C.saveQ img f q = some d → d ≠ [])
    (Hs : ∀ img f d, C.save img f = some d → d ≠ [])
    (hg : goodMatch m) :
    ∃ m2, resize_image_match C k m = renderMatch m2 ∧ goodMatch m2 ∧
      m2.alt = m.alt ∧ m2.fmt = m.fmt ∧
      resize_image_match C k m2 = renderMatch m2 := by
  cases hdec : b64decode m.payload with
  | none =>
    exact ⟨m, rim_decode_none hdec, hg, rfl, rfl, rim_decode_none hdec⟩
  | some d =>
    by_cases hle : (d.length : ℚ) / 1024 ≤ (k : ℚ)
    · exact ⟨m, rim_under hdec hle, hg, rfl, rfl, rim_under hdec hle⟩
    · cases hop : C.imgOpen d with
      | none =>
        exact ⟨m, rim_open_none hdec hle hop, hg, rfl, rfl,
          rim_open_none hdec hle hop⟩
      | some img =>
        cases hloop : shrinkLoop C k img m.fmt 5 (4 / 5 : ℚ) with
        | none =>
          exact ⟨m, rim_loop_none hdec hle hop hloop, hg, rfl, rfl,
            rim_loop_none hdec hle hop hloop⟩
        | some nd =>
          refine ⟨⟨m.alt, m.fmt, b64encode nd⟩,
            rim_loop_some hdec hle hop hloop, ?_, rfl, rfl, ?_⟩
          · obtain ⟨halt, hf, hsc, -, -⟩ := hg
            have hnd : nd ≠ [] := by
              obtain ⟨img2, hsave⟩ := shrinkLoop_some_save hloop
              unfold saveOf at hsave
              by_cases hj : saveFormatOf m.fmt = "JPEG".data
              · rw [if_pos hj] at hsave
                exact Hq _ _ _ _ hsave
              · rw [if_neg hj] at hsave
                exact Hs _ _ _ hsave
            exact ⟨halt, hf, hsc, b64encode_ne_nil hnd, b64encode_no_paren⟩
          · exact @rim_under C k ⟨m.alt, m.fmt, b64encode nd⟩ nd
              (b64decode_encode nd) (shrinkLoop_some_le hloop)

/-- Structure of a first pass: it is the identity, or it rewrites the
first image block (keeping `altText`/`formatTag`, with a well-formed
payload) and recursively the rest. -/
theorem reSub_decomp {C : Codec} {k : Int}
    (Hq : ∀ img f q d, C.saveQ img f q = some d → d ≠ [])
    (Hs : ∀ img f d, C.save img f = some d → d ≠ []) :
    ∀ (n : Nat) (l : List Char), l.length ≤ n →
    reSub (resize_image_match C k) l = l ∨
    ∃ xs m m2 rest, l = xs ++ (renderMatch m ++ rest) ∧
      goodMatch m ∧ goodMatch m2 ∧ m2.alt = m.alt ∧ m2.fmt = m.fmt ∧
      reSub (resize_image_match C k) l =
        xs ++ (renderMatch m2 ++ reSub (resize_image_match C k) rest) := by
  intro n
  induction n with
  | zero =>
    intro l h
    obtain rfl : l = [] := by
      cases l with
      | nil => rfl
      | cons c cs => simp at h
    exact Or.inl (reSub_nil _)
  | succ n ih =>
    intro l h
    cases l with
    | nil => exact Or.inl (reSub_nil _)
    | cons c cs =>
      cases hm : matchHere (c :: cs) with
      | none =>
        rcases ih cs (by simp at h; omega) with hid | hdec
        · left
          rw [reSub_cons_none _ hm, hid]
        · right
          obtain ⟨xs, m, m2, rest, hcs, hgm, hgm2, hal, hfm, hout⟩ := hdec
          refine ⟨c :: xs, m, m2, rest, ?_, hgm, hgm2, hal, hfm, ?_⟩
          · rw [List.cons_append, ← hcs]
          · rw [reSub_cons_none _ hm, hout, List.cons_append]
      | some p =>
        obtain ⟨m, rest⟩ := p
        obtain ⟨hl, hgm⟩ := matchHere_eq_some.mp hm
        obtain ⟨m2, hfm2, hgm2, hal, hfm, -⟩ := rim_fixpoint Hq Hs hgm
        right
        refine ⟨[], m, m2, rest, by simpa using hl, hgm, hgm2, hal, hfm, ?_⟩
        rw [reSub_of_match _ hm, hfm2]
        simp

/-- Idempotence of the full scan: a second pass over the output of a first
pass changes nothing. -/
theorem reSub_idem {C : Codec} {k : Int}
    (Hq : ∀ img f q d, C.saveQ img f q = some d → d ≠ [])
    (Hs : ∀ img f d, C.save img f = some d → d ≠ []) :
    ∀ (n : Nat) (l : List Char), l.length ≤ n →
    reSub (resize_image_match C k) (reSub (resize_image_match C k) l) =
      reSub (resize_image_match C k) l := by
  intro n
  induction n with
  | zero =>
    intro l h
    obtain rfl : l = [] := by
      cases l with
      | nil => rfl
      | cons c cs => simp at h
    rw [reSub_nil, reSub_nil]
  | succ n ih =>
    intro l h
    cases l with
    | nil => rw [reSub_nil, reSub_nil]
    | cons c cs =>
      cases hm : matchHere (c :: cs) with
      | none =>
        rw [reSub_cons_none _ hm]
        have hnone : matchHere (c :: reSub (resize_image_match C k) cs) =
            none := by
          rcases reSub_decomp Hq Hs cs.length cs le_rfl with hid | hdec
          · rw [hid]; exact hm
          · obtain ⟨xs, m, m2, rest, hcs, hgm, hgm2, hal, hfm, hout⟩ := hdec
            obtain ⟨halt, hf, hsc, hp0, hpp⟩ := hgm
            obtain ⟨halt2, hf2, hsc2, hp02, hpp2⟩ := hgm2
            rw [hout]
            have hx : (c :: (xs ++ (renderMatch m2 ++
                reSub (resize_image_match C k) rest))) =
                (c :: xs) ++ (renderMatch m2 ++
                  reSub (resize_image_match C k) rest) := by simp
            rw [hx]
            have hm' : matchHere ((c :: xs) ++ (renderMatch m ++ rest)) =
                none := by
              rw [List.cons_append, ← hcs]
              exact hm
            have hmm : m = ⟨m.alt, m.fmt, m.payload⟩ := rfl
            have hmm2 : m2 = ⟨m.alt, m.fmt, m2.payload⟩ := by
              rw [← hal, ← hfm]
            rw [hmm2]
            rw [hmm] at hm'
            have htr := @matchHere_transfer (c :: xs) m.alt m.fmt m.payload
              rest m2.payload (reSub (resize_image_match C k) rest)
              halt hf hsc hp0 hpp hp02 hpp2
            rw [Option.isNone_iff_eq_none.mpr hm'] at htr
            exact Option.isNone_iff_eq_none.mp htr.symm
        rw [reSub_cons_none _ hnone, ih cs (by simp at h; omega)]
      | some p =>
        obtain ⟨m, rest⟩ := p
        obtain ⟨hl, hgm⟩ := matchHere_eq_some.mp hm
        obtain ⟨m2, hfm2, hgm2, -, -, hfix⟩ := rim_fixpoint Hq Hs hgm
        rw [reSub_of_match _ hm, hfm2]
        have hm2 : matchHere (renderMatch m2 ++
            reSub (resize_image_match C k) rest) =
            some (m2, reSub (resize_image_match C k) rest) :=
          matchHere_render _ hgm2
        rw [reSub_of_match _ hm2, hfix]
        have hlen := matchHere_shrinks hm
        rw [ih rest (by simp at h; simp at hlen; omega)]

/-! ## Concrete instances used by witnesses -/

/-- A codec in which every PIL call raises. -/
def noneCodec : Codec :=
  ⟨fun _ => none, fun _ _ _ => none, fun _ _ _ => none, fun _ _ => none⟩

/-- A codec that decodes and resizes happily and encodes to zero bytes. -/
def tinyCodec : Codec :=
  ⟨fun _ => some ⟨1, 1, []⟩, fun _ _ _ => some ⟨1, 1, []⟩,
   fun _ _ _ => some [], fun _ _ => some []⟩

/-- `![a](data:image/png;base64,AAAA)` — a block whose payload decodes to
three zero bytes. -/
def sampleMatch : ImgMatch := ⟨"a".data, "png".data, "AAAA".data⟩

/-- A block whose payload `Zg` is not valid base64 (bad padding). -/
def badPayloadMatch : ImgMatch := ⟨"a".data, "png".data, "Zg".data⟩

def sampleDoc : List Char := "hi ![a](data:image/png;base64,AAAA) x".data

def okFileConv : FileConverter := fun _ _ => Except.ok "ok".data

def errFileConv : FileConverter := fun _ _ => Except.error "boom".data

def okTextConv : TextConverter := fun _ _ => Except.ok "ok".data

def errTextConv : TextConverter := fun _ _ => Except.error "boom".data

/-! ## The claims -/

/-- C1: for every matched image block whose decoded payload exceeds
`maxSizeKB`, the processed block is either byte-identical to the original
or a data URI whose base64 payload decodes to at most `maxSizeKB`
kilobytes; never a changed block that still exceeds the budget. -/
theorem C1_overbudget_block_safe (C : Codec) (max_size_kb : Int)
    (m : ImgMatch) (d0 : List Byte) (hdec : b64decode m.payload = some d0)
    (hover : ¬ (d0.length : ℚ) / 1024 ≤ (max_size_kb : ℚ)) :
    resize_image_match C max_size_kb m = renderMatch m ∨
    ∃ d : List Byte, resize_image_match C max_size_kb m =
        renderMatch ⟨m.alt, m.fmt, b64encode d⟩ ∧
      b64decode (b64encode d) = some d ∧
      (d.length : ℚ) / 1024 ≤ (max_size_kb : ℚ) := by
  cases hop : C.imgOpen d0 with
  | none => exact Or.inl (rim_open_none hdec hover hop)
  | some img =>
    cases hloop : shrinkLoop C max_size_kb img m.fmt 5 (4 / 5 : ℚ) with
    | none => exact Or.inl (rim_loop_none hdec hover hop hloop)
    | some nd =>
      exact Or.inr ⟨nd, rim_loop_some hdec hover hop hloop,
        b64decode_encode nd, shrinkLoop_some_le hloop⟩

theorem C1_overbudget_block_safe_witness :
    (b64decode sampleMatch.payload = some [(0 : Byte), 0, 0] ∧
      ¬ (([(0 : Byte), 0, 0].length : ℚ) / 1024 ≤ ((-1 : Int) : ℚ))) ∧
    (resize_image_match noneCodec (-1) sampleMatch = renderMatch sampleMatch ∨
    ∃ d : List Byte, resize_image_match noneCodec (-1) sampleMatch =
        renderMatch ⟨sampleMatch.alt, sampleMatch.fmt, b64encode d⟩ ∧
      b64decode (b64encode d) = some d ∧
      (d.length : ℚ) / 1024 ≤ ((-1 : Int) : ℚ)) :=
  ⟨⟨by decide, by norm_num⟩,
    C1_overbudget_block_safe noneCodec (-1) sampleMatch [0, 0, 0]
      (by decide) (by norm_num)⟩

/-- C2: the scan of `Shrink` partitions the document into unmatched
characters and matched blocks; substituting every block by itself
reassembles the document byte-for-byte, and the output is obtained by
replacing the matched blocks only — all characters outside matched spans
pass through unchanged. -/
theorem C2_outside_text_preserved (C : Codec) (k : Int) (l : List Char) :
    resize_base64_images true C k l =
      applyParts (resize_image_match C k) (scanParts l) ∧
    applyParts renderMatch (scanParts l) = l :=
  ⟨rfl, reSub_render_id l⟩

/-- C3: a matched block whose payload decodes to at most
`maxSizeKB` kilobytes (bytes/1024, true division) is returned
byte-for-byte unchanged, never re-encoded. -/
theorem C3_under_budget_untouched (C : Codec) (k : Int) (m : ImgMatch)
    (d : List Byte) (hdec : b64decode m.payload = some d)
    (hle : (d.length : ℚ) / 1024 ≤ (k : ℚ)) :
    resize_image_match C k m = renderMatch m :=
  rim_under hdec hle

theorem C3_under_budget_untouched_witness :
    (b64decode sampleMatch.payload = some [(0 : Byte), 0, 0] ∧
      (([(0 : Byte), 0, 0].length : ℚ) / 1024 ≤ ((200 : Int) : ℚ))) ∧
    resize_image_match noneCodec 200 sampleMatch = renderMatch sampleMatch :=
  ⟨⟨by decide, by norm_num⟩,
    C3_under_budget_untouched noneCodec 200 sampleMatch [0, 0, 0]
      (by decide) (by norm_num)⟩

/-- C4: `Shrink` is a total function of the document (it never raises):
each failure mode of a block — base64 decode failure, image decode
failure, resize/encoder failure or loop exhaustion — returns that block
unchanged, and the document is always the concatenation of the per-block
results, so other blocks are unaffected. -/
theorem C4_errors_pass_through (C : Codec) (k : Int) (m : ImgMatch)
    (l : List Char) :
    (b64decode m.payload = none →
      resize_image_match C k m = renderMatch m) ∧
    (∀ d, b64decode m.payload = some d →
      ¬ (d.length : ℚ) / 1024 ≤ (k : ℚ) → C.imgOpen d = none →
      resize_image_match C k m = renderMatch m) ∧
    (∀ d img, b64decode m.payload = some d →
      ¬ (d.length : ℚ) / 1024 ≤ (k : ℚ) → C.imgOpen d = some img →
      shrinkLoop C k img m.fmt 5 (4 / 5 : ℚ) = none →
      resize_image_match C k m = renderMatch m) ∧
    resize_base64_images true C k l =
      applyParts (resize_image_match C k) (scanParts l) :=
  ⟨fun h => rim_decode_none h,
   fun _ h hgt ho => rim_open_none h hgt ho,
   fun _ _ h hgt ho hl => rim_loop_none h hgt ho hl,
   rfl⟩

theorem C4_errors_pass_through_witness :
    b64decode badPayloadMatch.payload = none ∧
    resize_image_match noneCodec 200 badPayloadMatch =
      renderMatch badPayloadMatch :=
  ⟨by decide,
   (C4_errors_pass_through noneCodec 200 badPayloadMatch []).1 (by decide)⟩

/-- C5: when a matched block is replaced at all, the replacement keeps the
original `altText` and `formatTag` (the tag in the emitted data URI is the
source tag, not the internally normalized save format), and its payload
decodes to strictly fewer bytes than the original payload. -/
theorem C5_replacement_shape (C : Codec) (k : Int) (m : ImgMatch)
    (hne : resize_image_match C k m ≠ renderMatch m) :
    ∃ d d0, resize_image_match C k m =
        renderMatch ⟨m.alt, m.fmt, b64encode d⟩ ∧
      b64decode m.payload = some d0 ∧ b64decode (b64encode d) = some d ∧
      d.length < d0.length := by
  obtain ⟨d0, hdec⟩ : ∃ d0, b64decode m.payload = some d0 := by
    cases hdec : b64decode m.payload with
    | none => exact absurd (rim_decode_none hdec) hne
    | some d0 => exact ⟨d0, rfl⟩
  · by_cases hle : (d0.length : ℚ) / 1024 ≤ (k : ℚ)
    · exact absurd (rim_under hdec hle) hne
    · cases hop : C.imgOpen d0 with
      | none => exact absurd (rim_open_none hdec hle hop) hne
      | some img =>
        cases hloop : shrinkLoop C k img m.fmt 5 (4 / 5 : ℚ) with
        | none => exact absurd (rim_loop_none hdec hle hop hloop) hne
        | some nd =>
          refine ⟨nd, d0, rim_loop_some hdec hle hop hloop, hdec,
            b64decode_encode nd, ?_⟩
          have h1 : (nd.length : ℚ) / 1024 ≤ (k : ℚ) :=
            shrinkLoop_some_le hloop
          have hlt : (nd.length : ℚ) < (d0.length : ℚ) := by
            by_contra hc
            push_neg at hc
            exact hle (le_trans ((div_le_div_right
              (by norm_num : (0 : ℚ) < 1024)).mpr hc) h1)
          exact_mod_cast hlt

theorem tinyCodec_run :
    resize_image_match tinyCodec 0 sampleMatch =
      renderMatch ⟨sampleMatch.alt, sampleMatch.fmt, []⟩ := by
  have h1 : b64decode sampleMatch.payload = some [(0 : Byte), 0, 0] := by
    decide
  have h2 : ¬ (([(0 : Byte), 0, 0].length : ℚ) / 1024 ≤ ((0 : Int) : ℚ)) := by
    norm_num
  have h3 : tinyCodec.imgOpen [(0 : Byte), 0, 0] = some ⟨1, 1, []⟩ := rfl
  have h4 : shrinkLoop tinyCodec 0 ⟨1, 1, []⟩ sampleMatch.fmt 5 (4 / 5 : ℚ) =
      some [] := by
    have hsf : saveFormatOf sampleMatch.fmt = "PNG".data := by decide
    have hres : tinyCodec.resize ⟨1, 1, []⟩
        ((⌊((1 : Nat) : ℚ) * (4 / 5 : ℚ)⌋).toNat)
        ((⌊((1 : Nat) : ℚ) * (4 / 5 : ℚ)⌋).toNat) = some ⟨1, 1, []⟩ := rfl
    have hsave : saveOf tinyCodec ⟨1, 1, []⟩ "PNG".data = some [] := by
      unfold saveOf
      rw [if_neg (by decide : ¬ ("PNG".data = "JPEG".data))]
      rfl
    unfold shrinkLoop
    dsimp only
    rw [hsf]
    simp only [hres, hsave]
    norm_num
  have h5 := rim_loop_some h1 h2 h3 h4
  rw [h5]
  rfl

theorem C5_replacement_shape_witness :
    resize_image_match tinyCodec 0 sampleMatch ≠ renderMatch sampleMatch ∧
    ∃ d d0, resize_image_match tinyCodec 0 sampleMatch =
        renderMatch ⟨sampleMatch.alt, sampleMatch.fmt, b64encode d⟩ ∧
      b64decode sampleMatch.payload = some d0 ∧
      b64decode (b64encode d) = some d ∧ d.length < d0.length :=
  ⟨by rw [tinyCodec_run]; decide,
   C5_replacement_shape tinyCodec 0 sampleMatch (by rw [tinyCodec_run]; decide)⟩

/-- C6: the shrink loop as invoked (5 iterations, scale starting at 0.8
and multiplied by 0.8) performs at most five resize-and-encode attempts,
the `i`-th attempt targeting `⌊w·0.8^i⌋ × ⌊h·0.8^i⌋` computed from the
original image, and those targets are monotonically non-increasing. -/
theorem C6_loop_bounded_attempts (C : Codec) (k : Int) (img : PImage)
    (fmt : List Char) :
    shrinkLoop C k img fmt 5 (4 / 5 : ℚ) =
      attemptSeq C k img fmt [1, 2, 3, 4, 5] ∧
    ∀ i, (attemptDims img (i + 1)).1 ≤ (attemptDims img i).1 ∧
      (attemptDims img (i + 1)).2 ≤ (attemptDims img i).2 :=
  ⟨shrinkLoop_eq_attempts C k img fmt, fun i => attemptDims_antitone img i⟩

/-- C7: when PIL is unavailable, `resize_base64_images` is the identity
on every document and budget. -/
theorem C7_no_pil_identity (C : Codec) (k : Int) (l : List Char) :
    resize_base64_images false C k l = l := rfl

/-- C8: a request whose `max_size_kb` does not parse as an integer gets a
400 response with a JSON error body, on both `POST /convert` and
`POST /convert_text`, and the response does not depend on the converter or
the codec — neither is invoked. -/
theorem C8_bad_max_size_kb_rejected
    (conv conv' : FileConverter) (tconv tconv' : TextConverter)
    (pil pil' : Bool) (C C' : Codec) (fr : FileRequest) (tb : TextBody)
    (s : List Char) (jv : Jv)
    (hfr : fr.max_size_kb = some s) (hbad : pyIntOfString s = none)
    (htb : tb.max_size_kb = some jv) (hjbad : pyIntOfJv jv = none) :
    ((convert_file conv pil C fr).status = 400 ∧
     (∃ e, (convert_file conv pil C fr).body = RespBody.jsonError e) ∧
     convert_file conv pil C fr = convert_file conv' pil' C' fr) ∧
    ((convert_text tconv pil C (some tb)).status = 400 ∧
     (∃ e, (convert_text tconv pil C (some tb)).body =
       RespBody.jsonError e) ∧
     convert_text tconv pil C (some tb) =
       convert_text tconv' pil' C' (some tb)) := by
  constructor
  · unfold convert_file
    cases fr.file with
    | none => exact ⟨by trivial, ⟨_, by trivial⟩, by trivial⟩
    | some f =>
      by_cases hfn : f.filename = []
      · simp only [if_pos hfn]
        exact ⟨by trivial, ⟨_, by trivial⟩, by trivial⟩
      · simp only [if_neg hfn, hfr, Option.getD_some, hbad]
        exact ⟨by trivial, ⟨_, by trivial⟩, by trivial⟩
  · unfold convert_text
    dsimp only
    cases tb.text with
    | none => exact ⟨by trivial, ⟨_, by trivial⟩, by trivial⟩
    | some t =>
      simp only [htb, Option.getD_some, hjbad]
      exact ⟨by trivial, ⟨_, by trivial⟩, by trivial⟩

theorem C8_bad_max_size_kb_rejected_witness :
    (pyIntOfString "abc".data = none ∧ pyIntOfJv (Jv.jstr "abc".data) = none) ∧
    (((convert_file okFileConv true noneCodec
        ⟨some ⟨"a.txt".data, []⟩, none, some "abc".data⟩).status = 400 ∧
      (∃ e, (convert_file okFileConv true noneCodec
        ⟨some ⟨"a.txt".data, []⟩, none, some "abc".data⟩).body =
          RespBody.jsonError e) ∧
      convert_file okFileConv true noneCodec
        ⟨some ⟨"a.txt".data, []⟩, none, some "abc".data⟩ =
      convert_file errFileConv false tinyCodec
        ⟨some ⟨"a.txt".data, []⟩, none, some "abc".data⟩) ∧
     ((convert_text okTextConv true noneCodec
        (some ⟨some "hi".data, none, some (Jv.jstr "abc".data)⟩)).status =
          400 ∧
      (∃ e, (convert_text okTextConv true noneCodec
        (some ⟨some "hi".data, none,
          some (Jv.jstr "abc".data)⟩)).body = RespBody.jsonError e) ∧
      convert_text okTextConv true noneCodec
        (some ⟨some "hi".data, none, some (Jv.jstr "abc".data)⟩) =
      convert_text errTextConv false tinyCodec
        (some ⟨some "hi".data, none, some (Jv.jstr "abc".data)⟩))) :=
  ⟨⟨by decide, by decide⟩,
   C8_bad_max_size_kb_rejected okFileConv errFileConv okTextConv errTextConv
     true false noneCodec tinyCodec
     ⟨some ⟨"a.txt".data, []⟩, none, some "abc".data⟩
     ⟨some "hi".data, none, some (Jv.jstr "abc".data)⟩
     "abc".data (Jv.jstr "abc".data) rfl (by decide) rfl (by decide)⟩

/-- C9: `POST /convert` without a `file` part gets exactly
`400 {"error": "No file provided"}`; with an empty filename it gets a 400
JSON error; in both cases the response does not depend on the converter or
the codec — conversion is not invoked. -/
theorem C9_missing_file_rejected (conv conv' : FileConverter)
    (pil pil' : Bool) (C C' : Codec) (fr : FileRequest) :
    (fr.file = none →
      convert_file conv pil C fr =
        ⟨400, RespBody.jsonError "No file provided".data⟩ ∧
      convert_file conv pil C fr = convert_file conv' pil' C' fr) ∧
    (∀ f, fr.file = some f → f.filename = [] →
      convert_file conv pil C fr =
        ⟨400, RespBody.jsonError "No file selected".data⟩ ∧
      convert_file conv pil C fr = convert_file conv' pil' C' fr) := by
  constructor
  · intro hf
    unfold convert_file
    rw [hf]
    exact ⟨by trivial, by trivial⟩
  · intro f hf hfn
    unfold convert_file
    rw [hf]
    simp only [if_pos hfn]
    exact ⟨by trivial, by trivial⟩

theorem C9_missing_file_rejected_witness :
    (convert_file okFileConv true noneCodec ⟨none, none, none⟩ =
        ⟨400, RespBody.jsonError "No file provided".data⟩ ∧
      convert_file okFileConv true noneCodec ⟨none, none, none⟩ =
        convert_file errFileConv false tinyCodec ⟨none, none, none⟩) ∧
    (convert_file okFileConv true noneCodec ⟨some ⟨[], []⟩, none, none⟩ =
        ⟨400, RespBody.jsonError "No file selected".data⟩ ∧
      convert_file okFileConv true noneCodec ⟨some ⟨[], []⟩, none, none⟩ =
        convert_file errFileConv false tinyCodec
          ⟨some ⟨[], []⟩, none, none⟩) :=
  ⟨(C9_missing_file_rejected okFileConv errFileConv true false noneCodec
      tinyCodec ⟨none, none, none⟩).1 rfl,
   (C9_missing_file_rejected okFileConv errFileConv true false noneCodec
      tinyCodec ⟨some ⟨[], []⟩, none, none⟩).2 ⟨[], []⟩ rfl rfl⟩

/-- C10: `Shrink` is idempotent.  The codec's calls are deterministic
functions; assuming its encoders never emit an empty byte string (true of
every real image format, which writes at least a header), a second pass
returns the first pass's output unchanged. -/
theorem C10_idempotent (pil : Bool) (C : Codec) (k : Int) (l : List Char)
    (Hq : ∀ img f q d, C.saveQ img f q = some d → d ≠ [])
    (Hs : ∀ img f d, C.save img f = some d → d ≠ []) :
    resize_base64_images pil C k (resize_base64_images pil C k l) =
      resize_base64_images pil C k l := by
  cases pil with
  | false => rfl
  | true =>
    show reSub (resize_image_match C k) (reSub (resize_image_match C k) l) =
      reSub (resize_image_match C k) l
    exact reSub_idem Hq Hs l.length l le_rfl

theorem C10_idempotent_witness :
    (∀ img f q d, noneCodec.saveQ img f q = some d → d ≠ []) ∧
    (∀ img f d, noneCodec.save img f = some d → d ≠ []) ∧
    resize_base64_images true noneCodec 200
        (resize_base64_images true noneCodec 200 sampleDoc) =
      resize_base64_images true noneCodec 200 sampleDoc :=
  ⟨fun _ _ _ _ h => Option.noConfusion h,
   fun _ _ _ h => Option.noConfusion h,
   C10_idempotent true noneCodec 200 sampleDoc
     (fun _ _ _ _ h => Option.noConfusion h)
     (fun _ _ _ h => Option.noConfusion h)⟩

end MarkItDown

